import Mathlib

/-!
Verification of the Gauss-Hermite expansion engine of `src/math_gausshermite.cpp`
(Agama).  The C++ `double` arithmetic is modelled over `ℝ`; `std::vector`
buffers are modelled as `List ℝ`; thrown `std::invalid_argument` exceptions are
modelled by `Except String`.  External collaborators that are not part of the
translated file (the adaptive integrator `integrateNdim`, the
Levenberg-Marquardt driver `nonlinearMultiFit`, the B-spline interpolator
`BsplineInterpolator1d` and the Gauss-Legendre tables of `math_core`) enter the
model as explicit inputs.
-/

open Finset

namespace Agama

/-- QUADORDER = 7: the fixed quadrature parameter N of the source
(2·N²+1 = 99 integration nodes). -/
def QUADORDER : ℕ := 7

/-- The static lookup table `sqroots` of the first 8 square roots declared
inside `hermiteArray`: `{ 1., sqrt(2.), sqrt(3.), 2., sqrt(5.), sqrt(6.),
sqrt(7.), sqrt(8.) }`. -/
noncomputable def sqroots : List ℝ :=
  [1, Real.sqrt 2, Real.sqrt 3, 2, Real.sqrt 5, Real.sqrt 6, Real.sqrt 7, Real.sqrt 8]

/-- Body of the loop `for(int n=1; n<nmax; n++)` of `hermiteArray`.  The
remaining iteration count `nmax - n` is the explicit recursion measure; `n` and
the carried value `sqrtn` are passed along exactly as in the source. -/
noncomputable def hermiteLoop (x : ℝ) : ℕ → ℕ → ℝ → List ℝ → List ℝ
  | 0, _, _, result => result
  | remaining + 1, n, sqrtn, result =>
    let sqrtnplus1 := if n < 8 then sqroots.getD n 0 else Real.sqrt ((n : ℝ) + 1)
    hermiteLoop x remaining (n + 1) sqrtnplus1
      (result.set (n + 1)
        ((Real.sqrt 2 * x * result.getD n 0 - sqrtn * result.getD (n - 1) 0) / sqrtnplus1))

/-- `hermiteArray(nmax, x, result)` of the source: fills `result[0..nmax]` with
the values of the custom-normalized Hermite polynomials at `x` and returns the
buffer.  When `nmax < 1` the function returns at once, leaving the buffer
untouched. -/
noncomputable def hermiteArray (nmax : ℕ) (x : ℝ) (result : List ℝ) : List ℝ :=
  if nmax < 1 then result
  else
    let r0 := result.set 0 1
    let r1 := if 1 ≤ nmax then r0.set 1 (Real.sqrt 2 * x) else r0
    hermiteLoop x (nmax - 1) 1 1 r1

/-- The mathematical sequence generated by the three-term recurrence of
`hermiteArray`: H₀ = 1, H₁ = √2·x, H_{n+2} = (√2·x·H_{n+1} − √(n+1)·H_n)/√(n+2). -/
noncomputable def ghHermite (x : ℝ) : ℕ → ℝ
  | 0 => 1
  | 1 => Real.sqrt 2 * x
  | n + 2 =>
    (Real.sqrt 2 * x * ghHermite x (n + 1) - Real.sqrt ((n : ℝ) + 1) * ghHermite x n) /
      Real.sqrt ((n : ℝ) + 2)

lemma getD_set_self (l : List ℝ) (i : ℕ) (a : ℝ) (h : i < l.length) :
    (l.set i a).getD i 0 = a := by
  rw [List.getD_eq_getElem _ _ (by simpa using h)]
  simp [List.getElem_set, h]

lemma getD_set_ne (l : List ℝ) (i k : ℕ) (a : ℝ) (h : i ≠ k) :
    (l.set i a).getD k 0 = l.getD k 0 := by
  by_cases hk : k < l.length
  · rw [List.getD_eq_getElem _ _ (by simpa using hk), List.getD_eq_getElem _ _ hk]
    simp [List.getElem_set, h]
  · rw [List.getD_eq_default _ _ (by simpa using Nat.le_of_not_lt hk),
      List.getD_eq_default _ _ (Nat.le_of_not_lt hk)]

/-- The lookup table agrees with the runtime square-root fallback. -/
lemma sqroots_agree (n : ℕ) (h : n < 8) : sqroots.getD n 0 = Real.sqrt ((n : ℝ) + 1) := by
  interval_cases n
  · norm_num [sqroots]
  · norm_num [sqroots]
  · norm_num [sqroots]
  · rw [show ((3 : ℕ) : ℝ) + 1 = 2 ^ 2 by norm_num, Real.sqrt_sq (by norm_num)]
    norm_num [sqroots]
  · norm_num [sqroots]
  · norm_num [sqroots]
  · norm_num [sqroots]
  · norm_num [sqroots]

/-- Invariant of `hermiteLoop`: starting at position `n ≥ 1` with the carried
square root `√n` and a buffer holding `ghHermite` values up to `n`, the loop
extends the buffer to hold them up to `n + remaining`. -/
lemma hermiteLoop_getD (x : ℝ) :
    ∀ (remaining n : ℕ) (sqrtn : ℝ) (res : List ℝ), 1 ≤ n →
      sqrtn = Real.sqrt (n : ℝ) →
      n + remaining < res.length →
      (∀ k, k ≤ n → res.getD k 0 = ghHermite x k) →
      ∀ k, k ≤ n + remaining →
        (hermiteLoop x remaining n sqrtn res).getD k 0 = ghHermite x k := by
  intro remaining
  induction remaining with
  | zero =>
    intro n sqrtn res _ _ _ hinv k hk
    simpa [hermiteLoop] using hinv k (by omega)
  | succ m ih =>
    intro n sqrtn res hn hs hlen hinv k hk
    subst hs
    obtain ⟨j, rfl⟩ : ∃ j, n = j + 1 := ⟨n - 1, by omega⟩
    have hsq : (if j + 1 < 8 then sqroots.getD (j + 1) 0
        else Real.sqrt (((j + 1 : ℕ) : ℝ) + 1)) = Real.sqrt (((j + 1 : ℕ) : ℝ) + 1) := by
      by_cases h8 : j + 1 < 8
      · rw [if_pos h8, sqroots_agree _ h8]
      · rw [if_neg h8]
    have hval : (Real.sqrt 2 * x * res.getD (j + 1) 0 -
        Real.sqrt ((j + 1 : ℕ) : ℝ) * res.getD (j + 1 - 1) 0) /
          Real.sqrt (((j + 1 : ℕ) : ℝ) + 1) = ghHermite x (j + 2) := by
      rw [hinv (j + 1) le_rfl, show j + 1 - 1 = j from rfl, hinv j (by omega)]
      show _ = (Real.sqrt 2 * x * ghHermite x (j + 1) - Real.sqrt ((j : ℝ) + 1) * ghHermite x j) /
          Real.sqrt ((j : ℝ) + 2)
      push_cast
      ring_nf
    have hstep : hermiteLoop x (m + 1) (j + 1) (Real.sqrt ((j + 1 : ℕ) : ℝ)) res =
        hermiteLoop x m (j + 2) (Real.sqrt (((j + 1 : ℕ) : ℝ) + 1))
          (res.set (j + 2) (ghHermite x (j + 2))) := by
      show hermiteLoop x m (j + 1 + 1) _ (res.set (j + 1 + 1) _) = _
      rw [hsq, hval]
    rw [hstep]
    have hcast : Real.sqrt (((j + 1 : ℕ) : ℝ) + 1) = Real.sqrt (((j + 2 : ℕ) : ℝ)) := by
      push_cast; ring_nf
    have hlen2 : j + 2 + m < (res.set (j + 2) (ghHermite x (j + 2))).length := by
      rw [List.length_set]; omega
    refine ih (j + 2) _ _ (by omega) hcast hlen2 ?_ k (by omega)
    intro k' hk'
    rcases Nat.lt_or_ge k' (j + 2) with hlt | hge
    · rw [getD_set_ne _ _ _ _ (by omega)]
      exact hinv k' (by omega)
    · have : k' = j + 2 := by omega
      subst this
      exact getD_set_self _ _ _ (by omega)

/-- Entries 0..nmax of the buffer returned by `hermiteArray` (for `nmax ≥ 1`
and a buffer of the contracted size) are the `ghHermite` values. -/
lemma hermiteArray_getD (nmax : ℕ) (hn : 1 ≤ nmax) (x : ℝ) (res : List ℝ)
    (hlen : nmax < res.length) :
    ∀ k, k ≤ nmax → (hermiteArray nmax x res).getD k 0 = ghHermite x k := by
  intro k hk
  rw [hermiteArray, if_neg (by omega)]
  simp only [if_pos hn]
  have h1 : (1 : ℝ) = Real.sqrt ((1 : ℕ) : ℝ) := by simp
  have hlen2 : 1 + (nmax - 1) < ((res.set 0 1).set 1 (Real.sqrt 2 * x)).length := by
    rw [List.length_set, List.length_set]; omega
  refine hermiteLoop_getD x (nmax - 1) 1 1 _ le_rfl h1 hlen2 ?_ k (by omega)
  intro k' hk'
  interval_cases k'
  · rw [getD_set_ne _ _ _ _ (by omega)]
    exact getD_set_self _ _ _ (by omega)
  · exact getD_set_self _ _ _ (by simpa using (by omega : 1 < res.length))

lemma getD_ofFn {n : ℕ} (f : Fin n → ℝ) (i : ℕ) (h : i < n) :
    (List.ofFn f).getD i 0 = f ⟨i, h⟩ := by
  rw [List.getD_eq_getElem _ _ (by simpa using h)]
  simp

/-- Odd members of the Hermite family vanish at the origin. -/
lemma ghHermite_odd_zero : ∀ k : ℕ, ghHermite 0 (2 * k + 1) = 0 := by
  intro k
  induction k with
  | zero => simp [ghHermite]
  | succ m ih =>
    show ghHermite 0 (2 * m + 1 + 2) = 0
    rw [ghHermite, ih]
    simp

/-- `computeClassicMoments` (lines 43-53): post-processing of the triple of
integrals returned by the external adaptive integrator `integrateNdim` applied
to `MomentsIntegrand`.  The integrator itself is an external collaborator, so
its output `(result0, result1, result2)` is an input of the model. -/
noncomputable def computeClassicMoments (result0 result1 result2 : ℝ) : List ℝ :=
  let m0 := result0
  let m1 := if result0 ≠ 0 then result1 / result0 else 0
  let m2 := if result0 ≠ 0 then Real.sqrt (max 0 (result2 / result0 - m1 * m1)) else 0
  [m0, m1, m2]

/-- The contribution of quadrature node `p` to GH coefficient `i` inside the
double loop of `computeGaussHermiteMoments`:
`mult * (fp + (i%2 ? -1 : 1) * fm) * hpoly[i]`, with
`y = p/QUADORDER`, `mult = √2*width/ampl/QUADORDER*exp(-y²/2)`,
`fp = fnc(center+width*y)` and `fm = (p==0 ? 0 : fnc(center-width*y))`. -/
noncomputable def ghMomentTerm (fnc : ℝ → ℝ) (order : ℕ) (ampl center width : ℝ)
    (i p : ℕ) : ℝ :=
  let y : ℝ := (p : ℝ) * (1 / (QUADORDER : ℝ))
  let mult : ℝ := Real.sqrt 2 * width / ampl / (QUADORDER : ℝ) * Real.exp (-0.5 * y * y)
  let fp : ℝ := fnc (center + width * y)
  let fm : ℝ := if p = 0 then 0 else fnc (center - width * y)
  let hpoly : List ℝ := hermiteArray order y (List.replicate (order + 1) 0)
  mult * (fp + (if i % 2 = 1 then (-1 : ℝ) else 1) * fm) * hpoly.getD i 0

/-- `computeGaussHermiteMoments` (lines 95-110): the vector `result[0..order]`
accumulated over the nodes `p = 0 .. QUADORDER²`.  Each cell accumulates
independently, so the double loop `result[i] += ...` produces in cell `i` the
sum of the node contributions `ghMomentTerm ... i p`. -/
noncomputable def computeGaussHermiteMoments (fnc : ℝ → ℝ) (order : ℕ)
    (ampl center width : ℝ) : List ℝ :=
  List.ofFn fun i : Fin (order + 1) =>
    ∑ p ∈ Finset.range (QUADORDER ^ 2 + 1), ghMomentTerm fnc order ampl center width (i : ℕ) p

lemma computeGaussHermiteMoments_getD (fnc : ℝ → ℝ) (order : ℕ) (a c w : ℝ)
    (i : ℕ) (hi : i < order + 1) :
    (computeGaussHermiteMoments fnc order a c w).getD i 0 =
      ∑ p ∈ Finset.range (QUADORDER ^ 2 + 1), ghMomentTerm fnc order a c w i p := by
  rw [computeGaussHermiteMoments, getD_ofFn _ _ hi]

/-- The `GaussHermiteExpansion` object: envelope parameters and the vector of
GH coefficients (the member `moments`). -/
structure GaussHermiteExpansion where
  Ampl : ℝ
  Center : ℝ
  Width : ℝ
  moments : List ℝ

/-- The constructor `GaussHermiteExpansion::GaussHermiteExpansion(fnc, order,
ampl, center, width)` (lines 202-237).  The C++ code tests
`isFinite(ampl+center+width)`: `ℝ` has no NaN/infinity, so that test enters the
model as the flag `envelopeFinite`.  When the envelope is not finite the source
seeds `computeClassicMoments` (an `integrateNdim` call) into the external
Levenberg-Marquardt solver `nonlinearMultiFit`; both are external
collaborators, so the refined `(ampl, center, width)` they produce enters the
model as the input `fitParams`.  The thrown `std::invalid_argument` becomes
`Except.error`. -/
noncomputable def GaussHermiteExpansion.construct (fnc : ℝ → ℝ) (order : ℕ)
    (ampl center width : ℝ) (envelopeFinite : Bool) (fitParams : ℝ × ℝ × ℝ) :
    Except String GaussHermiteExpansion :=
  if order < 2 then Except.error "GaussHermiteExpansion: order must be >=2"
  else
    let acw := if envelopeFinite then (ampl, center, width) else fitParams
    Except.ok ⟨acw.1, acw.2.1, acw.2.2,
      computeGaussHermiteMoments fnc order acw.1 acw.2.1 acw.2.2⟩

/-- `GaussHermiteExpansion::value(x)` (lines 239-251).  The `alloca` scratch
buffer of the source is uninitialized; it is modelled as a zero buffer, which
is equivalent whenever `ncoefs ≥ 2` because `hermiteArray` then overwrites
every entry. -/
noncomputable def GaussHermiteExpansion.value (e : GaussHermiteExpansion) (x : ℝ) : ℝ :=
  let ncoefs := e.moments.length
  if ncoefs = 0 then 0
  else
    let xscaled := (x - e.Center) / e.Width
    let norm := 1 / Real.sqrt 2 / Real.sqrt Real.pi * e.Ampl / e.Width *
      Real.exp (-0.5 * (xscaled * xscaled))
    let hpoly := hermiteArray (ncoefs - 1) xscaled (List.replicate ncoefs 0)
    (∑ i ∈ Finset.range ncoefs, e.moments.getD i 0 * hpoly.getD i 0) * norm

/-- `GaussHermiteExpansion::normn(n)` (lines 253-264). -/
noncomputable def GaussHermiteExpansion.normn (n : ℕ) : ℝ :=
  if n % 2 = 1 then 0
  else if n = 0 then 1
  else if n = 2 then 1 / Real.sqrt 2
  else if n = 4 then 0.6123724356957945
  else if n = 6 then 0.5590169943749474
  else if n = 8 then 0.5229125165837972
  else Real.sqrt (Nat.factorial n : ℝ) / (Nat.doubleFactorial n : ℝ)

/-- `GaussHermiteExpansion::norm()` (lines 266-271): the loop
`for(n=0; n<moments.size(); n+=2)` visits `n = 2i` for `i < ⌈size/2⌉`. -/
noncomputable def GaussHermiteExpansion.norm (e : GaussHermiteExpansion) : ℝ :=
  (∑ i ∈ Finset.range ((e.moments.length + 1) / 2),
    e.moments.getD (2 * i) 0 * GaussHermiteExpansion.normn (2 * i)) * e.Ampl

/-- `GaussHermiteFitter::numVars()` (line 196). -/
def fitterNumVars (order : ℕ) : ℕ := order + 1

/-- `GaussHermiteFitter::numValues()` (line 197). -/
def fitterNumValues : ℕ := 2 * QUADORDER ^ 2 + 1

/-- The residual `values[p]` computed by `GaussHermiteFitter::evalDeriv`
(lines 173-195) at node `p` for the parameter vector `vars = (ampl, center,
width, h_3, ..., h_order)`. -/
noncomputable def fitterValues (order : ℕ) (fnc : ℝ → ℝ) (vars : List ℝ) (p : ℕ) : ℝ :=
  let ampl := vars.getD 0 0
  let center := vars.getD 1 0
  let width := vars.getD 2 0
  let sqwidth := Real.sqrt width
  let y : ℝ := (1 / (QUADORDER : ℝ)) * ((p : ℝ) - (QUADORDER : ℝ) ^ 2)
  let x := center + width * y
  let hpoly := hermiteArray order y (List.replicate (order + 1) 0)
  let sum := 1 + ∑ n ∈ Finset.Icc 3 order, vars.getD n 0 * hpoly.getD n 0
  let mult := 1 / Real.sqrt 2 / Real.sqrt Real.pi * Real.exp (-0.5 * y * y) * sum / sqwidth
  sqwidth * fnc x - mult * ampl

/-- The external tables of `math_core` consumed by the matrix builder:
`MAX_GL_TABLE` and the Gauss-Legendre nodes/weights `GLPOINTS`/`GLWEIGHTS`
indexed by node count. -/
structure MathExternals where
  maxGLTable : ℕ
  glpoints : ℕ → ℕ → ℝ
  glweights : ℕ → ℕ → ℝ

/-- The external `BsplineInterpolator1d<N>` interface consumed by the matrix
builder: the grid `xvalues()`, the basis-function count `numValues()`, and the
local query `nonzeroComponents(x)` returning the leftmost index together with
the `N+1` possibly non-zero B-spline values. -/
structure BsplineInterp (N : ℕ) where
  xvalues : List ℝ
  numValues : ℕ
  nonzeroComponents : ℝ → ℕ × List ℝ

/-- The dense matrix returned by the matrix builder, in row-major flat
storage as in `math::Matrix<double>`. -/
structure GHMatrix where
  rows : ℕ
  cols : ℕ
  data : ℕ → ℝ

/-- A single `+=` into the flat row-major storage `dresult`. -/
noncomputable def accumFlat (f : ℕ → ℝ) (idx : ℕ) (v : ℝ) : ℕ → ℝ :=
  fun j => if j = idx then f j + v else f j

/-- The templated `computeGaussHermiteMatrix<N>` (lines 119-153): Gauss-Legendre
accumulation of `mult * hpoly[m] * bspl[b]` into `dresult[m*numBsplines + b +
leftInd]` over every grid segment and node. -/
noncomputable def computeGaussHermiteMatrixT (N : ℕ) (ext : MathExternals)
    (interp : BsplineInterp N) (order : ℕ) (ampl center width : ℝ) : GHMatrix :=
  let nnodesGL : ℕ := min ext.maxGLTable (max ((N + order + 1) / 2 + 1) 3)
  let gridSize := interp.xvalues.length
  let numBsplines := interp.numValues
  let data :=
    (List.range (gridSize - 1)).foldl (fun dres n =>
      let x1 := interp.xvalues.getD n 0
      let x2 := interp.xvalues.getD (n + 1) 0
      let dx := x2 - x1
      (List.range nnodesGL).foldl (fun dres k =>
        let x := x1 + dx * ext.glpoints nnodesGL k
        let nz := interp.nonzeroComponents x
        let y := (x - center) / width
        let hpoly := hermiteArray order y (List.replicate (order + 1) 0)
        let mult := Real.sqrt 2 / ampl * dx * ext.glweights nnodesGL k *
          Real.exp (-0.5 * y * y)
        (List.range (order + 1)).foldl (fun dres m =>
          (List.range (N + 1)).foldl (fun dres b =>
            accumFlat dres (m * numBsplines + b + nz.1) (mult * hpoly.getD m 0 * nz.2.getD b 0))
            dres) dres) dres)
      (fun _ => 0)
  ⟨order + 1, numBsplines, data⟩

/-- The runtime entry point `computeGaussHermiteMatrix(N, grid, order, ampl,
center, width)` (lines 273-288): dispatch on the B-spline degree `N`, throwing
`std::invalid_argument` for any unsupported degree.  The external construction
`BsplineInterpolator1d<N>(grid)` enters the model as the input `mkInterp`. -/
noncomputable def computeGaussHermiteMatrix (N : ℤ) (ext : MathExternals)
    (mkInterp : (n : ℕ) → List ℝ → BsplineInterp n) (grid : List ℝ)
    (order : ℕ) (ampl center width : ℝ) : Except String GHMatrix :=
  if N = 0 then Except.ok (computeGaussHermiteMatrixT 0 ext (mkInterp 0 grid) order ampl center width)
  else if N = 1 then Except.ok (computeGaussHermiteMatrixT 1 ext (mkInterp 1 grid) order ampl center width)
  else if N = 2 then Except.ok (computeGaussHermiteMatrixT 2 ext (mkInterp 2 grid) order ampl center width)
  else if N = 3 then Except.ok (computeGaussHermiteMatrixT 3 ext (mkInterp 3 grid) order ampl center width)
  else Except.error "computeGaussHermiteMatrix: wrong B-spline degree"

/-- Modelled from the spec: the Direct GH Coefficient Integrator as the spec's
words describe it, accumulating `(f(center+width·y) + f(center-width·y))` for
even-index coefficients and the difference for odd-index ones at EVERY
quadrature node, i.e. without the special treatment `fm = 0` that the source
applies at the central node `p = 0`.  Used only to compare the spec's wording
with the source behaviour. -/
noncomputable def ghMomentTermSpecWords (fnc : ℝ → ℝ) (order : ℕ)
    (ampl center width : ℝ) (i p : ℕ) : ℝ :=
  let y : ℝ := (p : ℝ) * (1 / (QUADORDER : ℝ))
  let mult : ℝ := Real.sqrt 2 * width / ampl / (QUADORDER : ℝ) * Real.exp (-0.5 * y * y)
  let fp : ℝ := fnc (center + width * y)
  let fm : ℝ := fnc (center - width * y)
  let hpoly : List ℝ := hermiteArray order y (List.replicate (order + 1) 0)
  mult * (fp + (if i % 2 = 1 then (-1 : ℝ) else 1) * fm) * hpoly.getD i 0

/-- Modelled from the spec: sum of the `ghMomentTermSpecWords` contributions
over all quadrature nodes. -/
noncomputable def computeGaussHermiteMomentsSpecWords (fnc : ℝ → ℝ) (order : ℕ)
    (ampl center width : ℝ) : List ℝ :=
  List.ofFn fun i : Fin (order + 1) =>
    ∑ p ∈ Finset.range (QUADORDER ^ 2 + 1),
      ghMomentTermSpecWords fnc order ampl center width (i : ℕ) p

/-- The loop `for(n=0; n<L; n+=2)` summed as `i ↦ 2i` equals the filtered sum
over even indices below `L`. -/
lemma sum_even_filter (g : ℕ → ℝ) (L : ℕ) :
    ∑ i ∈ Finset.range ((L + 1) / 2), g (2 * i) =
      ∑ n ∈ Finset.range L, if n % 2 = 0 then g n else 0 := by
  induction L with
  | zero => simp
  | succ m ih =>
    rw [Finset.sum_range_succ]
    by_cases hm : m % 2 = 0
    · rw [show (m + 1 + 1) / 2 = m / 2 + 1 by omega, Finset.sum_range_succ,
        show (m + 1) / 2 = m / 2 by omega] at *
      rw [ih, if_pos hm, show 2 * (m / 2) = m by omega]
    · rw [show (m + 1 + 1) / 2 = (m + 1) / 2 by omega, ih, if_neg hm, add_zero]

/-- C2 (counterexample): a call of `hermiteArray` with `nmax = 0` does not set
`result[0] = 1`; on the buffer `[42]` the entry stays `42`. -/
theorem hermiteArray_degree0_cex :
    (hermiteArray 0 5 [42]).getD 0 0 = 42 ∧ (42 : ℝ) ≠ 1 := by
  constructor
  · rw [hermiteArray, if_pos (by norm_num)]
    simp
  · norm_num

/-- C2 (amended): `hermiteArray` writes `result[0] = 1` for every `nmax ≥ 1`
(on a buffer of the contracted length), while a call with `nmax = 0` returns
immediately leaving the buffer untouched — in particular neither `result[0]`
nor `result[1]` is written. -/
theorem hermiteArray_writes_h0 :
    (∀ (nmax : ℕ) (x : ℝ) (res : List ℝ), 1 ≤ nmax → nmax < res.length →
      (hermiteArray nmax x res).getD 0 0 = 1) ∧
    (∀ (x : ℝ) (res : List ℝ), hermiteArray 0 x res = res) := by
  constructor
  · intro nmax x res h1 hlen
    rw [hermiteArray_getD nmax h1 x res hlen 0 (by omega)]
    rfl
  · intro x res
    rw [hermiteArray, if_pos (by norm_num)]

theorem hermiteArray_writes_h0_witness :
    (1 : ℕ) ≤ 2 ∧ (2 : ℕ) < ([(0 : ℝ), 0, 0]).length ∧
      (hermiteArray 2 0 [0, 0, 0]).getD 0 0 = 1 :=
  ⟨by norm_num, by norm_num,
    hermiteArray_writes_h0.1 2 0 [0, 0, 0] (by norm_num) (by norm_num)⟩

/-- C3: for every `nmax ≥ 1` and a buffer of the contracted length,
`hermiteArray` produces `result[0] = 1`, `result[1] = √2·x`, the three-term
recurrence for `1 ≤ n < nmax`, and the lookup table for `n < 8` agrees with
the runtime square-root fallback. -/
theorem hermiteArray_recurrence (nmax : ℕ) (hn : 1 ≤ nmax) (x : ℝ) (res : List ℝ)
    (hlen : nmax < res.length) :
    (hermiteArray nmax x res).getD 0 0 = 1 ∧
    (hermiteArray nmax x res).getD 1 0 = Real.sqrt 2 * x ∧
    (∀ n : ℕ, 1 ≤ n → n < nmax →
      (hermiteArray nmax x res).getD (n + 1) 0 =
        (Real.sqrt 2 * x * (hermiteArray nmax x res).getD n 0 -
          Real.sqrt (n : ℝ) * (hermiteArray nmax x res).getD (n - 1) 0) /
          Real.sqrt ((n : ℝ) + 1)) ∧
    (∀ n : ℕ, n < 8 → sqroots.getD n 0 = Real.sqrt ((n : ℝ) + 1)) := by
  refine ⟨?_, ?_, ?_, fun n h => sqroots_agree n h⟩
  · rw [hermiteArray_getD nmax hn x res hlen 0 (by omega)]
    rfl
  · rw [hermiteArray_getD nmax hn x res hlen 1 (by omega)]
    rfl
  · intro n h1 h2
    rw [hermiteArray_getD nmax hn x res hlen (n + 1) (by omega),
      hermiteArray_getD nmax hn x res hlen n (by omega),
      hermiteArray_getD nmax hn x res hlen (n - 1) (by omega)]
    obtain ⟨m, rfl⟩ : ∃ m, n = m + 1 := ⟨n - 1, by omega⟩
    simp only [Nat.add_sub_cancel]
    show ghHermite x (m + 2) = _
    rw [ghHermite]
    push_cast
    ring_nf

theorem hermiteArray_recurrence_witness :
    (1 : ℕ) ≤ 2 ∧ (2 : ℕ) < ([(0 : ℝ), 0, 0]).length ∧
      ((hermiteArray 2 1 [0, 0, 0]).getD 0 0 = 1 ∧
        (hermiteArray 2 1 [0, 0, 0]).getD 1 0 = Real.sqrt 2 * 1 ∧
        (∀ n : ℕ, 1 ≤ n → n < 2 →
          (hermiteArray 2 1 [0, 0, 0]).getD (n + 1) 0 =
            (Real.sqrt 2 * 1 * (hermiteArray 2 1 [0, 0, 0]).getD n 0 -
              Real.sqrt (n : ℝ) * (hermiteArray 2 1 [0, 0, 0]).getD (n - 1) 0) /
              Real.sqrt ((n : ℝ) + 1)) ∧
        (∀ n : ℕ, n < 8 → sqroots.getD n 0 = Real.sqrt ((n : ℝ) + 1))) :=
  ⟨by norm_num, by norm_num, hermiteArray_recurrence 2 (by norm_num) 1 [0, 0, 0] (by norm_num)⟩

/-- C6: constructing a `GaussHermiteExpansion` with `order < 2` fails fast with
the invalid-argument error, for every function, envelope and external fit
result alike: no expansion state is produced. -/
theorem construct_order_lt_two_fails (fnc : ℝ → ℝ) (order : ℕ)
    (ampl center width : ℝ) (envelopeFinite : Bool) (fitParams : ℝ × ℝ × ℝ)
    (h : order < 2) :
    GaussHermiteExpansion.construct fnc order ampl center width envelopeFinite fitParams =
      Except.error "GaussHermiteExpansion: order must be >=2" := by
  rw [GaussHermiteExpansion.construct, if_pos h]

theorem construct_order_lt_two_fails_witness :
    (1 : ℕ) < 2 ∧
      GaussHermiteExpansion.construct (fun _ => 0) 1 0 0 1 true (0, 0, 0) =
        Except.error "GaussHermiteExpansion: order must be >=2" :=
  ⟨by norm_num, construct_order_lt_two_fails _ 1 _ _ _ _ _ (by norm_num)⟩

/-- C7: the matrix-builder entry point succeeds (dispatching to the
degree-specialized builder) for every basis degree N in 0..3, and raises the
invalid-argument error for every other degree. -/
theorem matrix_builder_dispatch (N : ℤ) (ext : MathExternals)
    (mkInterp : (n : ℕ) → List ℝ → BsplineInterp n) (grid : List ℝ)
    (order : ℕ) (ampl center width : ℝ) :
    ((N = 0 ∨ N = 1 ∨ N = 2 ∨ N = 3) →
      ∃ M : GHMatrix,
        computeGaussHermiteMatrix N ext mkInterp grid order ampl center width =
          Except.ok M) ∧
    (¬(N = 0 ∨ N = 1 ∨ N = 2 ∨ N = 3) →
      computeGaussHermiteMatrix N ext mkInterp grid order ampl center width =
        Except.error "computeGaussHermiteMatrix: wrong B-spline degree") := by
  constructor
  · rintro (rfl | rfl | rfl | rfl)
    · exact ⟨_, by rw [computeGaussHermiteMatrix, if_pos rfl]⟩
    · exact ⟨_, by rw [computeGaussHermiteMatrix, if_neg (by norm_num), if_pos rfl]⟩
    · exact ⟨_, by rw [computeGaussHermiteMatrix, if_neg (by norm_num),
        if_neg (by norm_num), if_pos rfl]⟩
    · exact ⟨_, by rw [computeGaussHermiteMatrix, if_neg (by norm_num),
        if_neg (by norm_num), if_neg (by norm_num), if_pos rfl]⟩
  · intro h
    push_neg at h
    obtain ⟨h0, h1, h2, h3⟩ := h
    rw [computeGaussHermiteMatrix, if_neg h0, if_neg h1, if_neg h2, if_neg h3]

theorem matrix_builder_dispatch_witness :
    ¬((5 : ℤ) = 0 ∨ (5 : ℤ) = 1 ∨ (5 : ℤ) = 2 ∨ (5 : ℤ) = 3) ∧
      computeGaussHermiteMatrix 5 ⟨0, fun _ _ => 0, fun _ _ => 0⟩
        (fun n _ => ⟨[], 0, fun _ => (0, List.replicate (n + 1) 0)⟩) [] 2 1 0 1 =
        Except.error "computeGaussHermiteMatrix: wrong B-spline degree" :=
  ⟨by norm_num,
    (matrix_builder_dispatch 5 ⟨0, fun _ _ => 0, fun _ _ => 0⟩
      (fun n _ => ⟨[], 0, fun _ => (0, List.replicate (n + 1) 0)⟩) [] 2 1 0 1).2 (by norm_num)⟩

/-- C8: `normn` vanishes exactly on every odd degree; `norm()` equals the
amplitude times the sum over even indices of `coefficients[n]·normn(n)`;
`normn` returns the hard-coded closed-form constants for n = 0,2,4,6,8 and
`sqrt(n!)/n!!` for every even degree beyond. -/
theorem normn_norm_spec :
    (∀ n : ℕ, n % 2 = 1 → GaussHermiteExpansion.normn n = 0) ∧
    (∀ e : GaussHermiteExpansion, e.norm =
      e.Ampl * ∑ n ∈ Finset.range e.moments.length,
        if n % 2 = 0 then e.moments.getD n 0 * GaussHermiteExpansion.normn n else 0) ∧
    GaussHermiteExpansion.normn 0 = 1 ∧
    GaussHermiteExpansion.normn 2 = 1 / Real.sqrt 2 ∧
    GaussHermiteExpansion.normn 4 = 0.6123724356957945 ∧
    GaussHermiteExpansion.normn 6 = 0.5590169943749474 ∧
    GaussHermiteExpansion.normn 8 = 0.5229125165837972 ∧
    (∀ n : ℕ, n % 2 = 0 → 10 ≤ n →
      GaussHermiteExpansion.normn n =
        Real.sqrt (Nat.factorial n : ℝ) / (Nat.doubleFactorial n : ℝ)) := by
  refine ⟨?_, ?_, ?_, ?_, ?_, ?_, ?_, ?_⟩
  · intro n h
    rw [GaussHermiteExpansion.normn, if_pos h]
  · intro e
    rw [GaussHermiteExpansion.norm,
      sum_even_filter (fun n => e.moments.getD n 0 * GaussHermiteExpansion.normn n), mul_comm]
  · rfl
  · rw [GaussHermiteExpansion.normn]
    norm_num
  · rw [GaussHermiteExpansion.normn]
    norm_num
  · rw [GaussHermiteExpansion.normn]
    norm_num
  · rw [GaussHermiteExpansion.normn]
    norm_num
  · intro n he h10
    rw [GaussHermiteExpansion.normn, if_neg (by omega), if_neg (by omega),
      if_neg (by omega), if_neg (by omega), if_neg (by omega), if_neg (by omega)]

theorem normn_norm_spec_witness :
    (3 : ℕ) % 2 = 1 ∧ GaussHermiteExpansion.normn 3 = 0 :=
  ⟨by norm_num, normn_norm_spec.1 3 (by norm_num)⟩

/-- C9: when the accumulated normalization (the 0th integral) is zero, the
Moment Estimator defines both the mean and the standard deviation as zero. -/
theorem classicMoments_zero_norm (r0 r1 r2 : ℝ) (h : r0 = 0) :
    (computeClassicMoments r0 r1 r2).getD 1 0 = 0 ∧
      (computeClassicMoments r0 r1 r2).getD 2 0 = 0 := by
  subst h
  simp [computeClassicMoments]

theorem classicMoments_zero_norm_witness :
    (0 : ℝ) = 0 ∧ ((computeClassicMoments 0 5 7).getD 1 0 = 0 ∧
      (computeClassicMoments 0 5 7).getD 2 0 = 0) :=
  ⟨rfl, classicMoments_zero_norm 0 5 7 rfl⟩

/-- C10: the standard deviation returned by the Moment Estimator is always
nonnegative; a negative raw variance estimate is clamped to zero before the
square root is taken. -/
theorem classicMoments_stddev_nonneg (r0 r1 r2 : ℝ) :
    0 ≤ (computeClassicMoments r0 r1 r2).getD 2 0 ∧
    (r0 ≠ 0 →
      (computeClassicMoments r0 r1 r2).getD 2 0 =
        Real.sqrt (max 0 (r2 / r0 - r1 / r0 * (r1 / r0)))) ∧
    (r0 ≠ 0 → r2 / r0 - r1 / r0 * (r1 / r0) < 0 →
      (computeClassicMoments r0 r1 r2).getD 2 0 = 0) := by
  have hval : r0 ≠ 0 → (computeClassicMoments r0 r1 r2).getD 2 0 =
      Real.sqrt (max 0 (r2 / r0 - r1 / r0 * (r1 / r0))) := by
    intro h
    simp [computeClassicMoments, h]
  refine ⟨?_, hval, ?_⟩
  · by_cases h : r0 = 0
    · subst h
      simp [computeClassicMoments]
    · rw [hval h]
      exact Real.sqrt_nonneg _
  · intro h hneg
    rw [hval h, max_eq_left (le_of_lt hneg), Real.sqrt_zero]

theorem classicMoments_stddev_nonneg_witness :
    (1 : ℝ) ≠ 0 ∧ (1 : ℝ) / 1 - 3 / 1 * (3 / 1) < 0 ∧
      (computeClassicMoments 1 3 1).getD 2 0 = 0 :=
  ⟨by norm_num, by norm_num,
    (classicMoments_stddev_nonneg 1 3 1).2.2 (by norm_num) (by norm_num)⟩

/-- C4 (amended): each even-index coefficient accumulates
`f(center+width·y) + f(center−width·y)` and each odd-index coefficient
`f(center+width·y) − f(center−width·y)` at every quadrature node EXCEPT the
central one `p = 0`, where the mirrored sample is replaced by zero (so only
`f(center)` enters); consequently, for every function exactly symmetric about
`center`, every odd-index coefficient is exactly zero. -/
theorem ghMoments_symmetry (fnc : ℝ → ℝ) (order : ℕ) (a c w : ℝ) :
    (∀ i, i ≤ order → (computeGaussHermiteMoments fnc order a c w).getD i 0 =
      ∑ p ∈ Finset.range (QUADORDER ^ 2 + 1),
        Real.sqrt 2 * w / a / (QUADORDER : ℝ) *
          Real.exp (-0.5 * ((p : ℝ) * (1 / (QUADORDER : ℝ))) *
            ((p : ℝ) * (1 / (QUADORDER : ℝ)))) *
        (if i % 2 = 1 then
            fnc (c + w * ((p : ℝ) * (1 / (QUADORDER : ℝ)))) -
              (if p = 0 then 0 else fnc (c - w * ((p : ℝ) * (1 / (QUADORDER : ℝ)))))
          else
            fnc (c + w * ((p : ℝ) * (1 / (QUADORDER : ℝ)))) +
              (if p = 0 then 0 else fnc (c - w * ((p : ℝ) * (1 / (QUADORDER : ℝ)))))) *
        (hermiteArray order ((p : ℝ) * (1 / (QUADORDER : ℝ)))
          (List.replicate (order + 1) 0)).getD i 0) ∧
    ((∀ t : ℝ, fnc (c + t) = fnc (c - t)) →
      ∀ i, i ≤ order → i % 2 = 1 →
        (computeGaussHermiteMoments fnc order a c w).getD i 0 = 0) := by
  constructor
  · intro i hi
    rw [computeGaussHermiteMoments_getD fnc order a c w i (by omega)]
    refine Finset.sum_congr rfl fun p _ => ?_
    rw [ghMomentTerm]
    by_cases hodd : i % 2 = 1
    · rw [if_pos hodd, if_pos hodd]
      ring
    · rw [if_neg hodd, if_neg hodd]
      ring
  · intro hsym i hi hodd
    have hord : 1 ≤ order := by omega
    rw [computeGaussHermiteMoments_getD fnc order a c w i (by omega)]
    refine Finset.sum_eq_zero fun p _ => ?_
    rw [ghMomentTerm, if_pos hodd]
    by_cases hp : p = 0
    · subst hp
      have hy : ((0 : ℕ) : ℝ) * (1 / (QUADORDER : ℝ)) = 0 := by norm_num
      rw [hy]
      have hh : (hermiteArray order 0 (List.replicate (order + 1) 0)).getD i 0 = 0 := by
        rw [hermiteArray_getD order hord 0 (List.replicate (order + 1) 0)
          (by simp) i hi]
        obtain ⟨k, rfl⟩ : ∃ k, i = 2 * k + 1 := ⟨i / 2, by omega⟩
        exact ghHermite_odd_zero k
      rw [hh, mul_zero]
    · rw [if_neg hp]
      have hfm : fnc (c + w * ((p : ℝ) * (1 / (QUADORDER : ℝ)))) =
          fnc (c - w * ((p : ℝ) * (1 / (QUADORDER : ℝ)))) :=
        hsym (w * ((p : ℝ) * (1 / (QUADORDER : ℝ))))
      rw [hfm]
      ring

theorem ghMoments_symmetry_witness :
    (∀ t : ℝ, (fun _ : ℝ => (1 : ℝ)) (0 + t) = (fun _ : ℝ => (1 : ℝ)) (0 - t)) ∧
      (computeGaussHermiteMoments (fun _ => 1) 2 1 0 1).getD 1 0 = 0 :=
  ⟨fun _ => rfl,
    (ghMoments_symmetry (fun _ => 1) 2 1 0 1).2 (fun _ => rfl) 1 (by norm_num) (by norm_num)⟩

/-- C4 (counterexample): accumulating the symmetric combination at EVERY
quadrature node, as the claim states, does not reproduce the source: at the
central node the source adds only `f(center)`, not `f(center)+f(center)`.
With `f ≡ 1`, order 1 and envelope `(1, 0, 1)` the two prescriptions differ. -/
theorem ghMoments_center_node_cex :
    computeGaussHermiteMomentsSpecWords (fun _ => 1) 1 1 0 1 ≠
      computeGaussHermiteMoments (fun _ => 1) 1 1 0 1 := by
  intro h
  have h0 : (computeGaussHermiteMomentsSpecWords (fun _ => 1) 1 1 0 1).getD 0 0 =
      (computeGaussHermiteMoments (fun _ => 1) 1 1 0 1).getD 0 0 := by rw [h]
  rw [computeGaussHermiteMoments_getD _ _ _ _ _ 0 (by norm_num),
    computeGaussHermiteMomentsSpecWords, getD_ofFn _ _ (by norm_num : (0 : ℕ) < 1 + 1)] at h0
  have hsub : ∑ p ∈ Finset.range (QUADORDER ^ 2 + 1),
      (ghMomentTermSpecWords (fun _ => 1) 1 1 0 1 0 p -
        ghMomentTerm (fun _ => 1) 1 1 0 1 0 p) = 0 := by
    rw [Finset.sum_sub_distrib, h0, sub_self]
  have hsingle : ∀ p ∈ Finset.range (QUADORDER ^ 2 + 1), p ≠ 0 →
      ghMomentTermSpecWords (fun _ => 1) 1 1 0 1 0 p -
        ghMomentTerm (fun _ => 1) 1 1 0 1 0 p = 0 := by
    intro p _ hp
    rw [ghMomentTermSpecWords, ghMomentTerm, if_neg hp]
    ring
  rw [Finset.sum_eq_single_of_mem 0 (by simp [QUADORDER]) hsingle] at hsub
  have hherm : (hermiteArray 1 (((0 : ℕ) : ℝ) * (1 / (QUADORDER : ℝ)))
      (List.replicate (1 + 1) 0)).getD 0 0 = 1 := by
    rw [hermiteArray_getD 1 le_rfl _ _ (by simp) 0 (by omega)]
    rfl
  rw [ghMomentTermSpecWords, ghMomentTerm, if_pos rfl, hherm] at hsub
  have h2 : (0 : ℝ) < Real.sqrt 2 := Real.sqrt_pos.mpr (by norm_num)
  rw [QUADORDER] at hsub
  norm_num at hsub
  nlinarith [hsub, h2]

/-- C1 (amended): for every expansion constructed with an explicit (finite)
envelope, `coefficients[0]` equals the quadrature estimate of the 0th GH
moment of the input function with respect to that envelope — it is not the
constant 1. -/
theorem ghExpansion_h0_quadrature (fnc : ℝ → ℝ) (order : ℕ)
    (ampl center width : ℝ) (fitParams : ℝ × ℝ × ℝ) (ho : 2 ≤ order)
    (e : GaussHermiteExpansion)
    (he : GaussHermiteExpansion.construct fnc order ampl center width true fitParams =
      Except.ok e) :
    e.moments.getD 0 0 =
      ∑ p ∈ Finset.range (QUADORDER ^ 2 + 1),
        Real.sqrt 2 * width / ampl / (QUADORDER : ℝ) *
          Real.exp (-0.5 * ((p : ℝ) * (1 / (QUADORDER : ℝ))) *
            ((p : ℝ) * (1 / (QUADORDER : ℝ)))) *
        (fnc (center + width * ((p : ℝ) * (1 / (QUADORDER : ℝ)))) +
          (if p = 0 then 0
            else fnc (center - width * ((p : ℝ) * (1 / (QUADORDER : ℝ)))))) := by
  rw [GaussHermiteExpansion.construct, if_neg (by omega)] at he
  simp only [if_pos] at he
  have he2 : e = ⟨ampl, center, width,
      computeGaussHermiteMoments fnc order ampl center width⟩ :=
    ((Except.ok.injEq _ _).mp he).symm
  subst he2
  rw [computeGaussHermiteMoments_getD fnc order ampl center width 0 (by omega)]
  refine Finset.sum_congr rfl fun p _ => ?_
  rw [ghMomentTerm]
  have hh : (hermiteArray order ((p : ℝ) * (1 / (QUADORDER : ℝ)))
      (List.replicate (order + 1) 0)).getD 0 0 = 1 := by
    rw [hermiteArray_getD order (by omega) _ _ (by simp) 0 (by omega)]
    rfl
  rw [hh]
  norm_num

/-- C1 (counterexample): the expansion of the identically-zero function with
the explicit envelope `(1, 0, 1)` and order 2 has `coefficients[0] = 0 ≠ 1`. -/
theorem ghExpansion_h0_not_one_cex :
    GaussHermiteExpansion.construct (fun _ => (0 : ℝ)) 2 1 0 1 true (0, 0, 0) =
      Except.ok ⟨1, 0, 1, computeGaussHermiteMoments (fun _ => (0 : ℝ)) 2 1 0 1⟩ ∧
    (computeGaussHermiteMoments (fun _ => (0 : ℝ)) 2 1 0 1).getD 0 0 ≠ 1 := by
  constructor
  · rw [GaussHermiteExpansion.construct, if_neg (by norm_num)]
    simp
  · rw [computeGaussHermiteMoments_getD _ _ _ _ _ 0 (by norm_num)]
    rw [Finset.sum_eq_zero fun p _ => by simp [ghMomentTerm]]
    norm_num

theorem ghExpansion_h0_quadrature_witness :
    (2 : ℕ) ≤ 2 ∧
      GaussHermiteExpansion.construct (fun _ => (0 : ℝ)) 2 1 0 1 true (0, 0, 0) =
        Except.ok ⟨1, 0, 1, computeGaussHermiteMoments (fun _ => (0 : ℝ)) 2 1 0 1⟩ ∧
      (computeGaussHermiteMoments (fun _ => (0 : ℝ)) 2 1 0 1).getD 0 0 =
        ∑ p ∈ Finset.range (QUADORDER ^ 2 + 1),
          Real.sqrt 2 * 1 / 1 / (QUADORDER : ℝ) *
            Real.exp (-0.5 * ((p : ℝ) * (1 / (QUADORDER : ℝ))) *
              ((p : ℝ) * (1 / (QUADORDER : ℝ)))) *
          ((fun _ => (0 : ℝ)) (0 + 1 * ((p : ℝ) * (1 / (QUADORDER : ℝ)))) +
            (if p = 0 then 0
              else (fun _ => (0 : ℝ)) (0 - 1 * ((p : ℝ) * (1 / (QUADORDER : ℝ)))))) :=
  ⟨le_rfl, by rw [GaussHermiteExpansion.construct, if_neg (by norm_num)]; simp,
    ghExpansion_h0_quadrature (fun _ => 0) 2 1 0 1 (0, 0, 0) le_rfl
      ⟨1, 0, 1, computeGaussHermiteMoments (fun _ => (0 : ℝ)) 2 1 0 1⟩
      (by rw [GaussHermiteExpansion.construct, if_neg (by norm_num)]; simp)⟩

/-- The GH-reconstructed value at `center + width·y` of the expansion whose
coefficients are `h₀ = 1, h₁ = h₂ = 0, h₃..h_order = vars[3..order]`. -/
lemma value_of_fit_params (order : ℕ) (ho : 2 ≤ order) (a c w y : ℝ) (hw : 0 < w)
    (vars : List ℝ) :
    GaussHermiteExpansion.value
        ⟨a, c, w,
          1 :: 0 :: 0 :: List.ofFn fun k : Fin (order - 2) => vars.getD ((k : ℕ) + 3) 0⟩
        (c + w * y) =
      (1 + ∑ n ∈ Finset.Icc 3 order, vars.getD n 0 *
          (hermiteArray order y (List.replicate (order + 1) 0)).getD n 0) *
        (1 / Real.sqrt 2 / Real.sqrt Real.pi * a / w * Real.exp (-0.5 * (y * y))) := by
  have hw0 : w ≠ 0 := ne_of_gt hw
  have hlen : (1 :: 0 :: 0 ::
      List.ofFn fun k : Fin (order - 2) => vars.getD ((k : ℕ) + 3) 0).length = order + 1 := by
    simp only [List.length_cons, List.length_ofFn]
    omega
  simp only [GaussHermiteExpansion.value]
  rw [hlen, if_neg (by omega)]
  have hxs : (c + w * y - c) / w = y := by field_simp
  rw [hxs, Nat.add_sub_cancel]
  have hsum : ∑ i ∈ Finset.range (order + 1),
      (1 :: 0 :: 0 ::
        List.ofFn fun k : Fin (order - 2) => vars.getD ((k : ℕ) + 3) 0).getD i 0 *
        (hermiteArray order y (List.replicate (order + 1) 0)).getD i 0 =
      1 + ∑ n ∈ Finset.Icc 3 order, vars.getD n 0 *
        (hermiteArray order y (List.replicate (order + 1) 0)).getD n 0 := by
    have hH0 : (hermiteArray order y (List.replicate (order + 1) 0)).getD 0 0 = 1 := by
      rw [hermiteArray_getD order (by omega) y _ (by simp) 0 (by omega)]
      rfl
    rw [Finset.range_eq_Ico,
      ← Finset.sum_Ico_consecutive _ (by omega : 0 ≤ 3) (by omega : 3 ≤ order + 1)]
    have h03 : ∑ i ∈ Finset.Ico 0 3,
        (1 :: 0 :: 0 ::
          List.ofFn fun k : Fin (order - 2) => vars.getD ((k : ℕ) + 3) 0).getD i 0 *
          (hermiteArray order y (List.replicate (order + 1) 0)).getD i 0 = 1 := by
      rw [← Finset.range_eq_Ico, Finset.sum_range_succ, Finset.sum_range_succ,
        Finset.sum_range_succ, Finset.sum_range_zero]
      simp only [List.getD_cons_zero, List.getD_cons_succ]
      rw [hH0]
      ring
    have h3o : ∑ i ∈ Finset.Ico 3 (order + 1),
        (1 :: 0 :: 0 ::
          List.ofFn fun k : Fin (order - 2) => vars.getD ((k : ℕ) + 3) 0).getD i 0 *
          (hermiteArray order y (List.replicate (order + 1) 0)).getD i 0 =
        ∑ n ∈ Finset.Icc 3 order, vars.getD n 0 *
          (hermiteArray order y (List.replicate (order + 1) 0)).getD n 0 := by
      rw [Nat.Ico_succ_right]
      refine Finset.sum_congr rfl fun i hi => ?_
      have h3 : 3 ≤ i := (Finset.mem_Icc.mp hi).1
      have hio : i ≤ order := (Finset.mem_Icc.mp hi).2
      obtain ⟨j, rfl⟩ : ∃ j, i = j + 3 := ⟨i - 3, by omega⟩
      have hcoef : (1 :: 0 :: 0 ::
          List.ofFn fun k : Fin (order - 2) => vars.getD ((k : ℕ) + 3) 0).getD (j + 3) 0 =
          vars.getD (j + 3) 0 := by
        rw [show j + 3 = j + 2 + 1 from rfl, List.getD_cons_succ,
          show j + 2 = j + 1 + 1 from rfl, List.getD_cons_succ,
          List.getD_cons_succ, getD_ofFn _ _ (by omega : j < order - 2)]
      rw [hcoef]
    rw [h03, h3o]
  rw [hsum]

/-- C5 (amended): the nonlinear GH fitter model has `order+1` free parameters
and `2·Q²+1 = 99` residual values, and the residual at node `x_k` equals
`√width·f(x_k)` minus `√width` TIMES the GH-reconstructed value at `x_k` built
with `h₀ = 1`, `h₁ = h₂ = 0` fixed and `h₃..h_order` taken from the free
parameters. -/
theorem fitter_residual_model (order : ℕ) (ho : 2 ≤ order) (fnc : ℝ → ℝ)
    (vars : List ℝ) (p : ℕ) (hw : 0 < vars.getD 2 0) :
    fitterNumVars order = order + 1 ∧ fitterNumValues = 99 ∧
    fitterValues order fnc vars p =
      Real.sqrt (vars.getD 2 0) *
          fnc (vars.getD 1 0 + vars.getD 2 0 *
            ((1 / (QUADORDER : ℝ)) * ((p : ℝ) - (QUADORDER : ℝ) ^ 2))) -
        Real.sqrt (vars.getD 2 0) *
          GaussHermiteExpansion.value
            ⟨vars.getD 0 0, vars.getD 1 0, vars.getD 2 0,
              1 :: 0 :: 0 :: List.ofFn fun k : Fin (order - 2) => vars.getD ((k : ℕ) + 3) 0⟩
            (vars.getD 1 0 + vars.getD 2 0 *
              ((1 / (QUADORDER : ℝ)) * ((p : ℝ) - (QUADORDER : ℝ) ^ 2))) := by
  refine ⟨rfl, rfl, ?_⟩
  have hw0 : vars.getD 2 0 ≠ 0 := ne_of_gt hw
  have hsw : Real.sqrt (vars.getD 2 0) ≠ 0 := by
    rw [Real.sqrt_ne_zero']
    exact hw
  have hww : Real.sqrt (vars.getD 2 0) * Real.sqrt (vars.getD 2 0) = vars.getD 2 0 :=
    Real.mul_self_sqrt (le_of_lt hw)
  rw [value_of_fit_params order ho (vars.getD 0 0) (vars.getD 1 0) (vars.getD 2 0)
    ((1 / (QUADORDER : ℝ)) * ((p : ℝ) - (QUADORDER : ℝ) ^ 2)) hw vars]
  simp only [fitterValues]
  rw [sub_right_inj]
  rw [show (-0.5 : ℝ) * ((1 / (QUADORDER : ℝ)) * ((p : ℝ) - (QUADORDER : ℝ) ^ 2)) *
      ((1 / (QUADORDER : ℝ)) * ((p : ℝ) - (QUADORDER : ℝ) ^ 2)) =
      -0.5 * (((1 / (QUADORDER : ℝ)) * ((p : ℝ) - (QUADORDER : ℝ) ^ 2)) *
        ((1 / (QUADORDER : ℝ)) * ((p : ℝ) - (QUADORDER : ℝ) ^ 2))) from mul_assoc _ _ _]
  have halg : ∀ (E S A sw wv : ℝ), sw ≠ 0 → sw * sw = wv →
      1 / Real.sqrt 2 / Real.sqrt Real.pi * E * S / sw * A =
        sw * (S * (1 / Real.sqrt 2 / Real.sqrt Real.pi * A / wv * E)) := by
    intro E S A sw wv hsw2 hww2
    subst hww2
    field_simp
    ring
  exact halg _ _ _ _ _ hsw hww

theorem fitter_residual_model_witness :
    (0 : ℝ) < ([(1 : ℝ), 0, 1]).getD 2 0 ∧
      (fitterNumVars 2 = 2 + 1 ∧ fitterNumValues = 99 ∧
        fitterValues 2 (fun _ => 0) [1, 0, 1] 0 =
          Real.sqrt (([(1 : ℝ), 0, 1]).getD 2 0) *
              (fun _ : ℝ => (0 : ℝ)) (([(1 : ℝ), 0, 1]).getD 1 0 + ([(1 : ℝ), 0, 1]).getD 2 0 *
                ((1 / (QUADORDER : ℝ)) * (((0 : ℕ) : ℝ) - (QUADORDER : ℝ) ^ 2))) -
            Real.sqrt (([(1 : ℝ), 0, 1]).getD 2 0) *
              GaussHermiteExpansion.value
                ⟨([(1 : ℝ), 0, 1]).getD 0 0, ([(1 : ℝ), 0, 1]).getD 1 0,
                  ([(1 : ℝ), 0, 1]).getD 2 0,
                  1 :: 0 :: 0 ::
                    List.ofFn fun k : Fin (2 - 2) => ([(1 : ℝ), 0, 1]).getD ((k : ℕ) + 3) 0⟩
                (([(1 : ℝ), 0, 1]).getD 1 0 + ([(1 : ℝ), 0, 1]).getD 2 0 *
                  ((1 / (QUADORDER : ℝ)) * (((0 : ℕ) : ℝ) - (QUADORDER : ℝ) ^ 2)))) :=
  ⟨by simp, fitter_residual_model 2 le_rfl (fun _ => 0) [1, 0, 1] 0 (by simp)⟩

/-- C5 (counterexample): the residual is NOT `√width·f(x_k)` minus the
GH-reconstructed value itself — the reconstructed value enters multiplied by
`√width`.  At `order = 3`, `f ≡ 0`, parameters `(1, 0, 4, 0)` and the central
node `p = 49` the two prescriptions differ. -/
theorem fitter_residual_cex :
    fitterValues 3 (fun _ => 0) [1, 0, 4, 0] 49 ≠
      Real.sqrt 4 * 0 - GaussHermiteExpansion.value ⟨1, 0, 4, [1, 0, 0, 0]⟩ 0 := by
  have h4 : Real.sqrt 4 = 2 := by
    rw [show (4 : ℝ) = 2 ^ 2 by norm_num, Real.sqrt_sq (by norm_num)]
  have hH0 : (hermiteArray 3 0 (List.replicate 4 0)).getD 0 0 = 1 := by
    rw [hermiteArray_getD 3 (by omega) 0 _ (by simp) 0 (by omega)]
    rfl
  have hy : (1 / (QUADORDER : ℝ)) * (((49 : ℕ) : ℝ) - (QUADORDER : ℝ) ^ 2) = 0 := by
    rw [QUADORDER]
    norm_num
  have hlhs : fitterValues 3 (fun _ => 0) [1, 0, 4, 0] 49 =
      -(1 / Real.sqrt 2 / Real.sqrt Real.pi / 2) := by
    simp only [fitterValues]
    rw [hy]
    have hicc : ∑ n ∈ Finset.Icc 3 3,
        ([(1 : ℝ), 0, 4, 0]).getD n 0 *
          (hermiteArray 3 0 (List.replicate (3 + 1) 0)).getD n 0 = 0 := by
      rw [Finset.Icc_self, Finset.sum_singleton]
      simp
    simp only [List.getD_cons_zero, List.getD_cons_succ]
    rw [hicc]
    rw [h4]
    norm_num
  have hrhs : GaussHermiteExpansion.value ⟨(1 : ℝ), 0, 4, [1, 0, 0, 0]⟩ 0 =
      1 / Real.sqrt 2 / Real.sqrt Real.pi / 4 := by
    have hL : (1 :: 0 :: 0 ::
        List.ofFn fun k : Fin (3 - 2) => ([(1 : ℝ), 0, 4, 0]).getD ((k : ℕ) + 3) 0) =
        [(1 : ℝ), 0, 0, 0] := by
      rw [show (3 - 2 : ℕ) = 1 from rfl, List.ofFn_succ]
      rfl
    have hval0 := value_of_fit_params 3 (by norm_num) 1 0 4 0 (by norm_num) [1, 0, 4, 0]
    rw [hL, show (0 : ℝ) + 4 * 0 = 0 by norm_num] at hval0
    rw [hval0, Finset.Icc_self, Finset.sum_singleton,
      show ([(1 : ℝ), 0, 4, 0]).getD 3 0 = 0 from rfl]
    norm_num
  rw [hlhs, hrhs, h4]
  have s2 : 0 < Real.sqrt 2 := Real.sqrt_pos.mpr (by norm_num)
  have spi : 0 < Real.sqrt Real.pi := Real.sqrt_pos.mpr Real.pi_pos
  have s2n : Real.sqrt 2 ≠ 0 := ne_of_gt s2
  have spin : Real.sqrt Real.pi ≠ 0 := ne_of_gt spi
  intro heq
  rw [mul_zero, zero_sub, neg_eq_iff_eq_neg, neg_neg] at heq
  field_simp at heq
  norm_num at heq

end Agama
